import Mathlib

/-!
Shallow embedding of `src/files.py` (OpenOmics/HiIP): the `clean`, `index`,
`groups` and `contrasts` functions.  A file is modelled as its list of lines
(each line without its trailing newline).  The diagnostics collaborators from
`utils` are not part of the sources; modelled from the spec: `err(message)`
is a non-fatal warning (collected in a list of message strings, colour
escape codes of the presentation layer left out) and `fatal(message)`
terminates the process (modelled as an `Except.error` carrying the message,
so a function that hits `fatal` returns no result).  Python dictionaries are
modelled as insertion-ordered association lists with overwrite-on-assign.
-/

namespace HiIP

/-- Characters Python's `str.strip()` removes (ASCII whitespace). -/
def isPyWs (c : Char) : Bool :=
  c = ' ' || c = '\t' || c = '\n' || c = '\r' || c = Char.ofNat 11 || c = Char.ofNat 12

/-- Drop leading and trailing characters satisfying `p`. -/
def stripList (p : Char → Bool) (l : List Char) : List Char :=
  ((l.dropWhile p).reverse.dropWhile p).reverse

/-- Python `s.strip()`. -/
def pyStrip (s : String) : String := ⟨stripList isPyWs s.data⟩

/-- Python `s.strip(c)` for a single character `c`. -/
def pyStripChar (c : Char) (s : String) : String := ⟨stripList (fun x => x = c) s.data⟩

/-- `files.py` `clean`: strip leading/trailing double quotes, then single quotes. -/
def clean (s : String) : String := pyStripChar '\'' (pyStripChar '"' s)

/-- Python `s.lower()` (ASCII). -/
def pyLower (s : String) : String := ⟨s.data.map Char.toLower⟩

/-- If `sep` is a prefix of `l`, return the remainder after it. -/
def dropSep : List Char → List Char → Option (List Char)
  | [], l => some l
  | _ :: _, [] => none
  | s :: ss, c :: cs => if c = s then dropSep ss cs else none

/-- Fuel-driven worker for `pySplit`; fuel bounds the number of consumed
characters so the recursion is structural. -/
def pySplitAux (sep : List Char) : Nat → List Char → List Char → List (List Char)
  | _, cur, [] => [cur.reverse]
  | 0, cur, l => [cur.reverse ++ l]
  | fuel + 1, cur, c :: cs =>
    match dropSep sep (c :: cs) with
    | some rest => cur.reverse :: pySplitAux sep fuel [] rest
    | none => pySplitAux sep fuel (c :: cur) cs

/-- Python `s.split(delim)` for a non-empty `delim`: split on each
left-to-right non-overlapping occurrence, keeping empty fields.
(Python raises `ValueError` on an empty separator; that case never arises
in `files.py`, which always passes a non-empty delimiter.) -/
def pySplit (s delim : String) : List String :=
  (pySplitAux delim.data (s.data.length + 1) [] s.data).map (fun l => ⟨l⟩)

/-- `re.split(';|,', s)`: split on every semicolon or comma. -/
def splitSemiComma : List Char → List (List Char)
  | [] => [[]]
  | c :: rest =>
    let r := splitSemiComma rest
    if c = ';' || c = ',' then [] :: r
    else
      match r with
      | [] => [[c]]
      | t :: ts => (c :: t) :: ts

/-- `re.split(';|,', s)` on strings. -/
def reSplitGroups (s : String) : List String :=
  (splitSemiComma s.data).map (fun l => ⟨l⟩)

/-- Python `list.index` returning the first position of `a`, `none` when absent
(Python raises `ValueError` there). -/
def listIndex? (a : String) : List String → Option Nat
  | [] => none
  | b :: rest => if b == a then some 0 else (listIndex? a rest).map Nat.succ

/-- Python dict assignment `d[k] = v`: overwrite an existing key in place,
otherwise append at the end (insertion order preserved). -/
def dictSet {α : Type} (d : List (String × α)) (k : String) (v : α) : List (String × α) :=
  if d.any (fun p => p.1 == k) then d.map (fun p => if p.1 == k then (k, v) else p)
  else d ++ [(k, v)]

/-- Python dict lookup `d[k]` as an `Option`. -/
def dictGet? {α : Type} (d : List (String × α)) (k : String) : Option α :=
  (d.find? (fun p => p.1 == k)).map (fun p => p.2)

/-- Lookup of a group's member list, `[]` when the group is absent. -/
def dictGetList (d : List (String × List String)) (k : String) : List String :=
  (dictGet? d k).getD []

/-- `index`: normalisation of the first line into header cells
(`clean(col.lower().strip())` over `line.strip().split(delim)`). -/
def normalizeHeader (line delim : String) : List String :=
  (pySplit (pyStrip line) delim).map (fun col => clean (pyStrip (pyLower col)))

/-- The `try` loop of `index`: assign `indices[col.lower()] = header.index(col.lower())`
for each required column in order; on the first missing column stop with the
partial dictionary and `false` (Python's `ValueError` handler). -/
def tryIndices (hdr : List String) : List (String × Nat) → List String → List (String × Nat) × Bool
  | d, [] => (d, true)
  | d, col :: rest =>
    match listIndex? (pyLower col) hdr with
    | some i => tryIndices hdr (dictSet d (pyLower col) i) rest
    | none => (d, false)

/-- The fallback loop of `index`: `indices[required[i]] = i` for each `i`. -/
def fallbackAssign : List (String × Nat) → Nat → List String → List (String × Nat)
  | d, _, [] => d
  | d, i, name :: rest => fallbackAssign (dictSet d name i) (i + 1) rest

/-- Fatal diagnostic for an empty configuration file. -/
def emptyFileMsg : String :=
  "Error: groups file is empty! Please add sample and group information to the file and try again."

/-- Warning emitted when a required column name is missing from the header. -/
def headerWarn1 : String :=
  "Warning: file is missing at least one of the following column names: Sample, Group"

/-- Companion warning announcing the positional fallback. -/
def headerWarn2 : String :=
  "Making assumptions about columns in the peakcall file... 1=Sample, 2=Group"

/-- `index(file, delim, required)`: fatal on an empty file; otherwise look the
required column names up in the normalised first line, falling back to
positional defaults (with a warning) when any name is missing.  The result is
the `(indices, has_header)` pair of the source together with the warnings
emitted. -/
def index (file : List String) (delim : String) (required : List String) :
    Except String (List (String × Nat) × Bool × List String) :=
  match file with
  | [] => Except.error emptyFileMsg
  | line :: _ =>
    match tryIndices (normalizeHeader line delim) [] required with
    | (d, true) => Except.ok (d, true, [])
    | (d, false) =>
      Except.ok (fallbackAssign d 0 required, false, [headerWarn1, headerWarn2])

/-- Warning for a data line lacking the sample or group column. -/
def missingColWarn (lineno : Nat) : String :=
  "Warning: Sample or Group column is missing for line " ++ toString lineno
    ++ ", skipping line..."

/-- Warning for a data line with an empty sample or group value. -/
def missingValWarn (lineno : Nat) : String :=
  "Warning: Sample or Group information is missing for line " ++ toString lineno
    ++ ", skipping line..."

/-- A data line split on the delimiter, each cell stripped
(`[l.strip() for l in line.split(delim)]`). -/
def parseCells (delim line : String) : List String :=
  (pySplit line delim).map pyStrip

/-- One `(sample, group-token)` insertion: create the group entry when absent,
append the sample when not already a member. -/
def addSample (d : List (String × List String)) (g sample : String) :
    List (String × List String) :=
  match dictGet? d g with
  | none => d ++ [(g, [sample])]
  | some members =>
    if sample ∈ members then d else dictSet d g (members ++ [sample])

/-- The cleaned group tokens of a group cell:
`[clean(g.strip()) for g in re.split(';|,', group)]`. -/
def cleanedTokens (group : String) : List String :=
  (reSplitGroups group).map (fun g => clean (pyStrip g))

/-- Processing of one accepted data row: add the sample under every cleaned
group token in order. -/
def addRow (d : List (String × List String)) (sample group : String) :
    List (String × List String) :=
  (cleanedTokens group).foldl (fun acc g => addSample acc g sample) d

/-- The per-line loop of `groups`: mirrors the `for line in fh` body, threading
the line number, the accumulated mapping and the warnings. -/
def groupsLoop (sIdx gIdx : Nat) (delim : String) :
    Nat → List (String × List String) → List String → List String →
    List (String × List String) × List String
  | _, dict, warns, [] => (dict, warns)
  | lineno, dict, warns, line :: rest =>
    match (parseCells delim line).get? sIdx, (parseCells delim line).get? gIdx with
    | some sCell, some gCell =>
      if clean sCell == "" || gCell == "" then
        groupsLoop sIdx gIdx delim (lineno + 1) dict
          (warns ++ [missingValWarn (lineno + 1)]) rest
      else
        groupsLoop sIdx gIdx delim (lineno + 1) (addRow dict (clean sCell) gCell) warns rest
    | _, _ =>
      if (parseCells delim line).filter (fun item => item != "") = [] then
        groupsLoop sIdx gIdx delim (lineno + 1) dict warns rest
      else
        groupsLoop sIdx gIdx delim (lineno + 1) dict
          (warns ++ [missingColWarn (lineno + 1)]) rest

/-- `groups(file, delim)`: obtain the column indices from `index` — called, as
in the source, with its default arguments: tab delimiter and
`['sample', 'group']` — then fold every data line (skipping the first line
exactly when a header was detected) into the group-to-samples mapping. -/
def groups (file : List String) (delim : String) :
    Except String (List (String × List String) × List String) :=
  match index file "\t" ["sample", "group"] with
  | Except.error e => Except.error e
  | Except.ok (indices, hasHeader, warns0) =>
    let sIdx := (dictGet? indices "sample").getD 0
    let gIdx := (dictGet? indices "group").getD 0
    let r := if hasHeader then groupsLoop sIdx gIdx delim 1 [] [] file.tail
             else groupsLoop sIdx gIdx delim 0 [] [] file
    Except.ok (r.1, warns0 ++ r.2)

/-- Warning for a contrasts line with fewer than two cells. -/
def contrastWarn (lineno : Nat) (line : String) : String :=
  "Warning: contrasts file is missing at least one group on line " ++ toString lineno
    ++ ": " ++ pyStrip line

/-- The per-line loop of `contrasts`: mirrors the `for line in fh` body,
threading the line number, the error accumulator, the comparison list and
the warnings. -/
def contrastsLoop (ks : List String) (delim : String) :
    Nat → List String → List (String × String) → List String → List String →
    List (String × String) × List String × List String
  | _, errors, comps, warns, [] => (comps, errors, warns)
  | lineno, errors, comps, warns, line :: rest =>
    match ((pySplit line delim).map (fun l => clean (pyStrip l))).get? 0,
          ((pySplit line delim).map (fun l => clean (pyStrip l))).get? 1 with
    | some g1, some g2 =>
      if g1 == "" || g2 == "" then
        contrastsLoop ks delim (lineno + 1) errors comps warns rest
      else
        contrastsLoop ks delim (lineno + 1)
          ((errors ++ (if g1 ∈ ks then [] else [g1])) ++ (if g2 ∈ ks then [] else [g2]))
          (if (g1, g2) ∈ comps then comps else comps ++ [(g1, g2)])
          warns rest
    | _, _ =>
      contrastsLoop ks delim (lineno + 1) errors comps
        (warns ++ [contrastWarn (lineno + 1) line]) rest

/-- `contrasts(file, groups, delim)` with `ks` the known-groups list: run the
per-line loop from the initial state and, when the error accumulator is
non-empty, terminate fatally with the comma-joined undefined group names
instead of returning the comparison list. -/
def contrasts (file : List String) (ks : List String) (delim : String) :
    Except String (List (String × String) × List String) :=
  match contrastsLoop ks delim 0 [] [] [] file with
  | (comps, errors, warns) =>
    if errors = [] then Except.ok (comps, warns)
    else Except.error (String.intercalate "," errors)

/-- The parse of one contrasts line, `none` when the line is skipped (fewer
than two cells, or an empty left or right value after cleaning). -/
def contrastRow (delim line : String) : Option (String × String) :=
  match ((pySplit line delim).map (fun l => clean (pyStrip l))).get? 0,
        ((pySplit line delim).map (fun l => clean (pyStrip l))).get? 1 with
  | some g1, some g2 => if g1 == "" || g2 == "" then none else some (g1, g2)
  | _, _ => none

/-- The ordered pairs of a contrasts file that reach the validation step. -/
def processedRows (delim : String) (file : List String) : List (String × String) :=
  file.filterMap (fun line => contrastRow delim line)

/-- The names one processed row contributes to the error accumulator. -/
def rowErrors (ks : List String) (p : String × String) : List String :=
  (if p.1 ∈ ks then [] else [p.1]) ++ (if p.2 ∈ ks then [] else [p.2])

/-- Every undefined group name a contrasts file references, in encounter
order (with repetitions, as accumulated by the source). -/
def undefinedNames (ks : List String) (delim : String) (file : List String) : List String :=
  (processedRows delim file).flatMap (rowErrors ks)

/-- Append each pair not already present, keeping first occurrences in order. -/
def dedupInto (acc : List (String × String)) : List (String × String) → List (String × String)
  | [] => acc
  | p :: ps => dedupInto (if p ∈ acc then acc else acc ++ [p]) ps

/-- The body of `groups` after the indexing stage, as a function of the
`(indices, has_header, warnings)` triple the indexer produced. -/
def groupsAfterIndex (r : List (String × Nat) × Bool × List String)
    (file : List String) (delim : String) :
    Except String (List (String × List String) × List String) :=
  let sIdx := (dictGet? r.1 "sample").getD 0
  let gIdx := (dictGet? r.1 "group").getD 0
  let res := if r.2.1 then groupsLoop sIdx gIdx delim 1 [] [] file.tail
             else groupsLoop sIdx gIdx delim 0 [] [] file
  Except.ok (res.1, r.2.2 ++ res.2)

/-! ### Basic lemmas about the dictionary model -/

theorem find?_replace {α : Type} (d : List (String × α)) (k : String) (v : α) :
    (d.map (fun p => if p.1 == k then (k, v) else p)).find? (fun p => p.1 == k) =
      if d.any (fun p => p.1 == k) then some (k, v) else none := by
  induction d with
  | nil => rfl
  | cons hd tl ih =>
    rw [List.map_cons, List.any_cons]
    by_cases h : (hd.1 == k) = true
    · rw [if_pos h, List.find?_cons]
      simp only [beq_self_eq_true]
      rw [h, Bool.true_or, if_pos rfl]
    · rw [if_neg h, List.find?_cons]
      rw [Bool.not_eq_true] at h
      simp only [h, Bool.false_or]
      exact ih

theorem find?_replace_ne {α : Type} (d : List (String × α)) (k k' : String) (v : α)
    (hne : k ≠ k') :
    (d.map (fun p => if p.1 == k' then (k', v) else p)).find? (fun p => p.1 == k) =
      d.find? (fun p => p.1 == k) := by
  induction d with
  | nil => rfl
  | cons hd tl ih =>
    rw [List.map_cons]
    by_cases h : (hd.1 == k') = true
    · have hk : (hd.1 == k) = false := by
        rw [beq_eq_false_iff_ne, beq_iff_eq.mp h]
        exact Ne.symm hne
      have hk2 : (k' == k) = false := beq_eq_false_iff_ne.mpr (Ne.symm hne)
      rw [if_pos h, List.find?_cons, List.find?_cons]
      simp only [hk2, hk]
      exact ih
    · rw [if_neg h, List.find?_cons, List.find?_cons]
      by_cases hk : (hd.1 == k) = true
      · simp only [hk]
      · rw [Bool.not_eq_true] at hk
        simp only [hk]
        exact ih

theorem dictGet?_dictSet_self {α : Type} (d : List (String × α)) (k : String) (v : α) :
    dictGet? (dictSet d k v) k = some v := by
  unfold dictSet dictGet?
  by_cases h : (d.any (fun p => p.1 == k)) = true
  · rw [if_pos h, find?_replace, if_pos h]
    rfl
  · have hnone : d.find? (fun p => p.1 == k) = none :=
      List.find?_eq_none.mpr (fun x hx hpx => h (List.any_eq_true.mpr ⟨x, hx, hpx⟩))
    rw [if_neg h, List.find?_append, hnone, Option.none_or, List.find?_singleton]
    simp [beq_self_eq_true]

theorem dictGet?_dictSet_ne {α : Type} (d : List (String × α)) (k k' : String) (v : α)
    (hne : k ≠ k') : dictGet? (dictSet d k' v) k = dictGet? d k := by
  unfold dictSet dictGet?
  by_cases h : (d.any (fun p => p.1 == k')) = true
  · rw [if_pos h, find?_replace_ne _ _ _ _ hne]
  · rw [if_neg h, List.find?_append]
    have hk2 : (k' == k) = false := beq_eq_false_iff_ne.mpr (Ne.symm hne)
    cases hfd : d.find? (fun p => p.1 == k) with
    | some p => rfl
    | none =>
      rw [Option.none_or, List.find?_singleton]
      simp [hk2]

theorem dictSet_of_not_mem_keys {α : Type} (d : List (String × α)) (k : String) (v : α)
    (h : k ∉ d.map Prod.fst) : dictSet d k v = d ++ [(k, v)] := by
  unfold dictSet
  have hany : (d.any (fun p => p.1 == k)) ≠ true := by
    intro hc
    obtain ⟨p, hp, hpk⟩ := List.any_eq_true.mp hc
    exact h (List.mem_map.mpr ⟨p, hp, (beq_iff_eq.mp hpk)⟩)
  rw [if_neg hany]

theorem mem_dictSet {α : Type} {d : List (String × α)} {k : String} {v : α} {p : String × α}
    (h : p ∈ dictSet d k v) : p = (k, v) ∨ p ∈ d := by
  unfold dictSet at h
  by_cases hany : (d.any fun q => q.1 == k) = true
  · rw [if_pos hany] at h
    obtain ⟨q, hq, hqe⟩ := List.mem_map.mp h
    by_cases hk : (q.1 == k) = true
    · rw [if_pos hk] at hqe
      exact Or.inl hqe.symm
    · rw [if_neg hk] at hqe
      exact Or.inr (hqe ▸ hq)
  · rw [if_neg hany] at h
    rcases List.mem_append.mp h with h1 | h1
    · exact Or.inr h1
    · exact Or.inl (List.mem_singleton.mp h1)

/-! ### Claim theorems: empty file, determinism, default indexer arguments -/

/-- C2: `index` on a file with zero lines terminates fatally with the
empty-file diagnostic, and so does `groups`, which calls it; on any file with
at least one line `index` does not take the fatal branch, and its result
depends only on the first line. -/
theorem index_empty_file_fatal :
    (∀ (delim : String) (required : List String),
        index [] delim required = Except.error emptyFileMsg)
    ∧ (∀ delim : String, groups [] delim = Except.error emptyFileMsg)
    ∧ (∀ (line : String) (rest : List String) (delim : String) (required : List String),
        ∃ v, index (line :: rest) delim required = Except.ok v)
    ∧ (∀ (line : String) (rest₁ rest₂ : List String) (delim : String) (required : List String),
        index (line :: rest₁) delim required = index (line :: rest₂) delim required) := by
  refine ⟨fun _ _ => rfl, fun _ => rfl, ?_, fun _ _ _ _ _ => rfl⟩
  intro line rest delim required
  rcases h : tryIndices (normalizeHeader line delim) [] required with ⟨d, b⟩
  cases b
  · refine ⟨(fallbackAssign d 0 required, false, [headerWarn1, headerWarn2]), ?_⟩
    simp only [index]
    rw [h]
  · refine ⟨(d, true, []), ?_⟩
    simp only [index]
    rw [h]

/-- C9: the parsers are deterministic — for a fixed file content and fixed
arguments the (pure) embedding of `groups` and of `contrasts` yields one and
the same result, warnings and fatal outcomes included, on any two runs. -/
theorem parsers_deterministic :
    ∀ (file ks : List String) (delim : String),
      groups file delim = groups file delim ∧
      contrasts file ks delim = contrasts file ks delim :=
  fun _ _ _ => ⟨rfl, rfl⟩

/-- C10: `groups` invokes the column indexer with its default arguments — tab
delimiter and required names `["sample", "group"]` — whatever `delim` it was
itself given; consequently (closed second conjunct) a comma-delimited file
whose single line contains the tokens `sample` and `group` is parsed
header-absent (the tab-split header misses them) and its first line is
consumed as a data row under columns 0 and 1. -/
theorem groups_calls_index_with_defaults :
    (∀ (file : List String) (delim : String),
      groups file delim =
        match index file "\t" ["sample", "group"] with
        | Except.error e => Except.error e
        | Except.ok r => groupsAfterIndex r file delim)
    ∧ groups ["sample,group"] "," =
        Except.ok ([("group", ["sample"])], [headerWarn1, headerWarn2]) := by
  constructor
  · intro file delim
    unfold groups groupsAfterIndex
    cases h : index file "\t" ["sample", "group"] with
    | error e => rfl
    | ok r => rfl
  · rfl

/-! ### The contrasts loop against its line-by-line specification -/

theorem processedRows_cons (delim line : String) (rest : List String) :
    processedRows delim (line :: rest) =
      match contrastRow delim line with
      | none => processedRows delim rest
      | some p => p :: processedRows delim rest := by
  simp only [processedRows, List.filterMap_cons]
  cases contrastRow delim line <;> rfl

theorem undefinedNames_cons (ks : List String) (delim line : String) (rest : List String) :
    undefinedNames ks delim (line :: rest) =
      match contrastRow delim line with
      | none => undefinedNames ks delim rest
      | some p => rowErrors ks p ++ undefinedNames ks delim rest := by
  simp only [undefinedNames, processedRows_cons]
  cases contrastRow delim line with
  | none => rfl
  | some p => simp [List.flatMap_cons]

theorem contrastsLoop_spec (ks : List String) (delim : String) :
    ∀ (lines : List String) (lineno : Nat) (errors : List String)
      (comps : List (String × String)) (warns : List String),
      ∃ w, contrastsLoop ks delim lineno errors comps warns lines =
        (dedupInto comps (processedRows delim lines),
         errors ++ undefinedNames ks delim lines, w) := by
  intro lines
  induction lines with
  | nil =>
    intro lineno errors comps warns
    exact ⟨warns, by simp [contrastsLoop, processedRows, undefinedNames, dedupInto]⟩
  | cons line rest ih =>
    intro lineno errors comps warns
    rcases h0 : ((pySplit line delim).map (fun l => clean (pyStrip l))).get? 0 with _ | g1
    · obtain ⟨w, hw⟩ := ih (lineno + 1) errors comps (warns ++ [contrastWarn (lineno + 1) line])
      refine ⟨w, ?_⟩
      have hrow : contrastRow delim line = none := by
        simp only [contrastRow, h0]
      simp only [contrastsLoop, h0]
      rw [hw]
      simp only [processedRows_cons, undefinedNames_cons, hrow]
    · rcases h1 : ((pySplit line delim).map (fun l => clean (pyStrip l))).get? 1 with _ | g2
      · obtain ⟨w, hw⟩ := ih (lineno + 1) errors comps (warns ++ [contrastWarn (lineno + 1) line])
        refine ⟨w, ?_⟩
        have hrow : contrastRow delim line = none := by
          simp only [contrastRow, h0, h1]
        simp only [contrastsLoop, h0, h1]
        rw [hw]
        simp only [processedRows_cons, undefinedNames_cons, hrow]
      · by_cases hc : (g1 == "" || g2 == "") = true
        · obtain ⟨w, hw⟩ := ih (lineno + 1) errors comps warns
          refine ⟨w, ?_⟩
          have hrow : contrastRow delim line = none := by
            simp only [contrastRow, h0, h1]
            rw [if_pos hc]
          simp only [contrastsLoop, h0, h1]
          rw [if_pos hc, hw]
          simp only [processedRows_cons, undefinedNames_cons, hrow]
        · obtain ⟨w, hw⟩ := ih (lineno + 1)
            ((errors ++ (if g1 ∈ ks then [] else [g1])) ++ (if g2 ∈ ks then [] else [g2]))
            (if (g1, g2) ∈ comps then comps else comps ++ [(g1, g2)]) warns
          refine ⟨w, ?_⟩
          have hrow : contrastRow delim line = some (g1, g2) := by
            simp only [contrastRow, h0, h1]
            rw [if_neg hc]
          simp only [contrastsLoop, h0, h1]
          rw [if_neg hc, hw]
          simp only [processedRows_cons, undefinedNames_cons, hrow, dedupInto, rowErrors,
            List.append_assoc]

/-- The observable outcome of `contrasts`: fatal with the comma-joined error
accumulator when some processed row referenced an undefined group, the
deduplicated comparison list otherwise. -/
theorem contrasts_eq (file ks : List String) (delim : String) :
    ∃ w, contrasts file ks delim =
      if undefinedNames ks delim file = [] then
        Except.ok (dedupInto [] (processedRows delim file), w)
      else Except.error (String.intercalate "," (undefinedNames ks delim file)) := by
  obtain ⟨w, hw⟩ := contrastsLoop_spec ks delim file 0 [] [] []
  refine ⟨w, ?_⟩
  simp only [contrasts, hw, List.nil_append]

/-- C1: if any processed row of the contrasts file references a group name
outside the known-groups set, `contrasts` — after consuming the whole file —
terminates fatally with the comma-joined list of every undefined name
encountered and returns no comparison list; it returns a list exactly when
no processed row referenced an undefined group, and each undefined name of a
processed row does appear in the reported list. -/
theorem contrasts_undefined_groups_fatal :
    ∀ (file ks : List String) (delim : String),
      (undefinedNames ks delim file ≠ [] →
        contrasts file ks delim =
          Except.error (String.intercalate "," (undefinedNames ks delim file)))
      ∧ ((∃ r, contrasts file ks delim = Except.ok r) ↔ undefinedNames ks delim file = [])
      ∧ (∀ g1 g2, (g1, g2) ∈ processedRows delim file →
          (g1 ∉ ks → g1 ∈ undefinedNames ks delim file) ∧
          (g2 ∉ ks → g2 ∈ undefinedNames ks delim file)) := by
  intro file ks delim
  obtain ⟨w, hw⟩ := contrasts_eq file ks delim
  refine ⟨?_, ⟨?_, ?_⟩, ?_⟩
  · intro hne
    rw [hw, if_neg hne]
  · rintro ⟨r, hr⟩
    by_contra hne
    rw [hw, if_neg hne] at hr
    cases hr
  · intro he
    exact ⟨_, by rw [hw, if_pos he]⟩
  · intro g1 g2 hmem
    constructor
    · intro hnot
      refine List.mem_flatMap.mpr ⟨(g1, g2), hmem, ?_⟩
      simp [rowErrors, hnot]
    · intro hnot
      refine List.mem_flatMap.mpr ⟨(g1, g2), hmem, ?_⟩
      simp [rowErrors, hnot]

/-- Witness for C1 at a concrete input: a valid row followed by a row naming
the undefined group `G9` ends in the fatal outcome reporting `G9`. -/
theorem contrasts_undefined_groups_fatal_witness :
    contrasts ["G2\tG1", "G9\tG1"] ["G1", "G2"] "\t" = Except.error "G9" := by
  have h := (contrasts_undefined_groups_fatal ["G2\tG1", "G9\tG1"] ["G1", "G2"] "\t").1
  have he : undefinedNames ["G1", "G2"] "\t" ["G2\tG1", "G9\tG1"] = ["G9"] := rfl
  rw [he] at h
  exact h (by decide)

/-! ### Deduplication properties of the comparison list -/

theorem dedupInto_nodup : ∀ (ps acc : List (String × String)),
    acc.Nodup → (dedupInto acc ps).Nodup := by
  intro ps
  induction ps with
  | nil => intro acc h; exact h
  | cons p ps ih =>
    intro acc h
    simp only [dedupInto]
    by_cases hp : p ∈ acc
    · rw [if_pos hp]
      exact ih acc h
    · rw [if_neg hp]
      refine ih _ ?_
      rw [List.nodup_append]
      refine ⟨h, List.nodup_singleton p, ?_⟩
      intro x hx hx1
      rw [List.mem_singleton] at hx1
      exact hp (hx1 ▸ hx)

theorem mem_dedupInto : ∀ (ps acc : List (String × String)) (x : String × String),
    x ∈ dedupInto acc ps ↔ x ∈ acc ∨ x ∈ ps := by
  intro ps
  induction ps with
  | nil =>
    intro acc x
    simp [dedupInto]
  | cons p ps ih =>
    intro acc x
    simp only [dedupInto]
    by_cases hp : p ∈ acc
    · rw [if_pos hp, ih]
      constructor
      · rintro (h | h)
        · exact Or.inl h
        · exact Or.inr (List.mem_cons_of_mem _ h)
      · rintro (h | h)
        · exact Or.inl h
        · rcases List.mem_cons.mp h with rfl | h2
          · exact Or.inl hp
          · exact Or.inr h2
    · rw [if_neg hp, ih]
      simp only [List.mem_append, List.mem_singleton, List.mem_cons]
      tauto

/-- C4: whenever `contrasts` returns a comparison list, that list is the
first-occurrence deduplication of the processed ordered pairs in file order:
it is duplicate-free, and it contains exactly the ordered pairs some
processed row produced (so `(A,B)` and `(B,A)` stay distinct entries). -/
theorem contrasts_dedup_first_occurrence :
    ∀ (file ks : List String) (delim : String) (l : List (String × String)) (w : List String),
      contrasts file ks delim = Except.ok (l, w) →
      l = dedupInto [] (processedRows delim file) ∧ l.Nodup ∧
        ∀ p, p ∈ l ↔ p ∈ processedRows delim file := by
  intro file ks delim l w h
  obtain ⟨w', hw⟩ := contrasts_eq file ks delim
  rw [hw] at h
  by_cases he : undefinedNames ks delim file = []
  · rw [if_pos he] at h
    have h2 : dedupInto [] (processedRows delim file) = l ∧ w' = w := by
      have := Except.ok.inj h
      exact ⟨congrArg Prod.fst this, congrArg Prod.snd this⟩
    refine ⟨h2.1.symm, ?_, ?_⟩
    · rw [← h2.1]
      exact dedupInto_nodup _ [] List.nodup_nil
    · intro p
      rw [← h2.1, mem_dedupInto]
      simp
  · rw [if_neg he] at h
    cases h

/-- Witness for C4 at a concrete input: a duplicate row collapses while the
swapped pair stays. -/
theorem contrasts_dedup_first_occurrence_witness :
    [(("G2" : String), ("G1" : String)), ("G1", "G2")] =
      dedupInto [] (processedRows "\t" ["G2\tG1", "G2\tG1", "G1\tG2"]) ∧
    ([(("G2" : String), ("G1" : String)), ("G1", "G2")]).Nodup ∧
    ∀ p, p ∈ [(("G2" : String), ("G1" : String)), ("G1", "G2")] ↔
      p ∈ processedRows "\t" ["G2\tG1", "G2\tG1", "G1\tG2"] :=
  contrasts_dedup_first_occurrence ["G2\tG1", "G2\tG1", "G1\tG2"] ["G1", "G2"] "\t"
    [("G2", "G1"), ("G1", "G2")] [] rfl

/-! ### The header indexer: success keys, fallback assignments -/

theorem index_cons_eq (line : String) (rest : List String) (delim : String)
    (required : List String) :
    index (line :: rest) delim required =
      match tryIndices (normalizeHeader line delim) [] required with
      | (d, true) => Except.ok (d, true, [])
      | (d, false) =>
        Except.ok (fallbackAssign d 0 required, false, [headerWarn1, headerWarn2]) := rfl

theorem index_cons_ok (line : String) (rest : List String) (delim : String)
    (required : List String) :
    ∃ v, index (line :: rest) delim required = Except.ok v := by
  rcases h : tryIndices (normalizeHeader line delim) [] required with ⟨d, b⟩
  cases b
  · exact ⟨_, by rw [index_cons_eq, h]⟩
  · exact ⟨_, by rw [index_cons_eq, h]⟩

theorem fallbackAssign_get_not_mem (names : List String) :
    ∀ (d : List (String × Nat)) (i : Nat) (k : String), k ∉ names →
      dictGet? (fallbackAssign d i names) k = dictGet? d k := by
  induction names with
  | nil => intro d i k _; rfl
  | cons n rest ih =>
    intro d i k hk
    simp only [fallbackAssign]
    rw [ih _ _ _ (fun h => hk (List.mem_cons_of_mem _ h)),
      dictGet?_dictSet_ne _ _ _ _ (fun h => hk (by rw [h]; exact List.mem_cons_self _ _))]

theorem fallbackAssign_get : ∀ (names : List String), names.Nodup →
    ∀ (d : List (String × Nat)) (i j : Nat) (h : j < names.length),
      dictGet? (fallbackAssign d i names) (names.get ⟨j, h⟩) = some (i + j) := by
  intro names
  induction names with
  | nil => intro _ d i j h; exact absurd h (Nat.not_lt_zero j)
  | cons n rest ih =>
    intro hnd d i j h
    obtain ⟨hn, hrest⟩ := List.nodup_cons.mp hnd
    cases j with
    | zero =>
      show dictGet? (fallbackAssign (dictSet d n i) (i + 1) rest) n = some (i + 0)
      rw [fallbackAssign_get_not_mem rest _ _ _ hn, dictGet?_dictSet_self, Nat.add_zero]
    | succ j' =>
      have h' : j' < rest.length := Nat.lt_of_succ_lt_succ h
      show dictGet? (fallbackAssign (dictSet d n i) (i + 1) rest) (rest.get ⟨j', h'⟩) =
        some (i + (j' + 1))
      rw [ih hrest (dictSet d n i) (i + 1) j' h']
      congr 1
      omega

theorem tryIndices_false_iff (hdr : List String) :
    ∀ (req : List String) (d : List (String × Nat)),
      (tryIndices hdr d req).2 = false ↔
        ∃ col ∈ req, listIndex? (pyLower col) hdr = none := by
  intro req
  induction req with
  | nil => intro d; simp [tryIndices]
  | cons c rest ih =>
    intro d
    cases hidx : listIndex? (pyLower c) hdr with
    | some i =>
      simp only [tryIndices, hidx]
      rw [ih]
      constructor
      · rintro ⟨col, hcol, hnone⟩
        exact ⟨col, List.mem_cons_of_mem _ hcol, hnone⟩
      · rintro ⟨col, hcol, hnone⟩
        rcases List.mem_cons.mp hcol with rfl | h2
        · rw [hidx] at hnone
          cases hnone
        · exact ⟨col, h2, hnone⟩
    | none =>
      simp only [tryIndices, hidx]
      constructor
      · intro _
        exact ⟨c, List.mem_cons_self _ _, hidx⟩
      · intro _
        trivial

theorem tryIndices_true_keys (hdr : List String) :
    ∀ (req : List String) (d d' : List (String × Nat)),
      (req.map pyLower).Nodup →
      (∀ c ∈ req, pyLower c ∉ d.map Prod.fst) →
      tryIndices hdr d req = (d', true) →
      d'.map Prod.fst = d.map Prod.fst ++ req.map pyLower := by
  intro req
  induction req with
  | nil =>
    intro d d' _ _ h
    have hd : d = d' := congrArg Prod.fst h
    subst hd
    simp
  | cons c rest ih =>
    intro d d' hnd hfresh h
    cases hidx : listIndex? (pyLower c) hdr with
    | none =>
      simp only [tryIndices, hidx] at h
      exact absurd (congrArg Prod.snd h) (by simp)
    | some i =>
      simp only [tryIndices, hidx] at h
      have hcfresh : pyLower c ∉ d.map Prod.fst := hfresh c (List.mem_cons_self _ _)
      have hkeys : (dictSet d (pyLower c) i).map Prod.fst = d.map Prod.fst ++ [pyLower c] := by
        rw [dictSet_of_not_mem_keys _ _ _ hcfresh, List.map_append]
        rfl
      rw [List.map_cons] at hnd
      obtain ⟨hc, hrest⟩ := List.nodup_cons.mp hnd
      have hstep := ih (dictSet d (pyLower c) i) d' hrest ?_ h
      · rw [hstep, hkeys, List.map_cons, List.append_assoc]
        rfl
      · intro x hx
        rw [hkeys]
        intro hmem
        rcases List.mem_append.mp hmem with h1 | h1
        · exact hfresh x (List.mem_cons_of_mem _ hx) h1
        · rw [List.mem_singleton] at h1
          exact hc (h1 ▸ List.mem_map_of_mem pyLower hx)

theorem index_fallback_eq (line : String) (rest : List String) (delim : String)
    (required : List String)
    (hcond : ∃ col ∈ required, listIndex? (pyLower col) (normalizeHeader line delim) = none) :
    index (line :: rest) delim required =
      Except.ok (fallbackAssign (tryIndices (normalizeHeader line delim) [] required).1 0 required,
        false, [headerWarn1, headerWarn2]) := by
  rcases ht : tryIndices (normalizeHeader line delim) [] required with ⟨d0, b⟩
  have hb : b = false := by
    have hfa := (tryIndices_false_iff (normalizeHeader line delim) required []).mpr hcond
    rw [ht] at hfa
    exact hfa
  subst hb
  rw [index_cons_eq, ht]

/-- C3: when some required column name is missing from the normalised first
line, `index` warns, reports header-present = false, and assigns the pure
positional default `required[j] → j`; consequently `groups` (whose indexer
call uses the tab delimiter and the default required names) does not skip
the first line and folds it as a data row with columns 0 and 1. -/
theorem index_header_fallback :
    (∀ (line : String) (rest : List String) (delim : String) (required : List String),
      required.Nodup →
      (∃ col ∈ required, listIndex? (pyLower col) (normalizeHeader line delim) = none) →
      index (line :: rest) delim required =
        Except.ok
          (fallbackAssign (tryIndices (normalizeHeader line delim) [] required).1 0 required,
            false, [headerWarn1, headerWarn2]) ∧
      ([headerWarn1, headerWarn2] : List String) ≠ [] ∧
      ∀ j, (h : j < required.length) →
        dictGet? (fallbackAssign (tryIndices (normalizeHeader line delim) [] required).1 0
          required) (required.get ⟨j, h⟩) = some j)
    ∧ (∀ (line : String) (rest : List String) (delim : String),
      (∃ col ∈ (["sample", "group"] : List String),
        listIndex? (pyLower col) (normalizeHeader line "\t") = none) →
      groups (line :: rest) delim =
        Except.ok ((groupsLoop 0 1 delim 0 [] [] (line :: rest)).1,
          [headerWarn1, headerWarn2] ++ (groupsLoop 0 1 delim 0 [] [] (line :: rest)).2)) := by
  constructor
  · intro line rest delim required hnd hcond
    refine ⟨index_fallback_eq line rest delim required hcond, by simp, ?_⟩
    intro j hj
    rw [fallbackAssign_get required hnd _ 0 j hj, Nat.zero_add]
  · intro line rest delim hcond
    have hidx := index_fallback_eq line rest "\t" ["sample", "group"] hcond
    have hs : dictGet?
        (fallbackAssign (tryIndices (normalizeHeader line "\t") [] ["sample", "group"]).1 0
          ["sample", "group"]) "sample" = some 0 := by
      have hg0 := fallbackAssign_get ["sample", "group"] (by decide)
        (tryIndices (normalizeHeader line "\t") [] ["sample", "group"]).1 0 0 (by decide)
      simpa using hg0
    have hg : dictGet?
        (fallbackAssign (tryIndices (normalizeHeader line "\t") [] ["sample", "group"]).1 0
          ["sample", "group"]) "group" = some 1 := by
      have hg1 := fallbackAssign_get ["sample", "group"] (by decide)
        (tryIndices (normalizeHeader line "\t") [] ["sample", "group"]).1 0 1 (by decide)
      simpa using hg1
    simp only [groups, hidx, hs, hg, Option.getD_some, Bool.false_eq_true, if_false]

/-- Witness for C3 at a concrete input: a first line carrying data instead of
the expected header names falls back to the positional assignment, and
`groups` consumes that first line as a data row. -/
theorem index_header_fallback_witness :
    (index ["A\tB"] "\t" ["sample", "group"] =
      Except.ok
        (fallbackAssign (tryIndices (normalizeHeader "A\tB" "\t") [] ["sample", "group"]).1 0
          ["sample", "group"], false, [headerWarn1, headerWarn2]) ∧
    ([headerWarn1, headerWarn2] : List String) ≠ [] ∧
    ∀ j, (h : j < (["sample", "group"] : List String).length) →
      dictGet? (fallbackAssign (tryIndices (normalizeHeader "A\tB" "\t") [] ["sample", "group"]).1
        0 ["sample", "group"]) ((["sample", "group"] : List String).get ⟨j, h⟩) = some j) ∧
    groups ["A\tB"] "\t" =
      Except.ok ((groupsLoop 0 1 "\t" 0 [] [] ["A\tB"]).1,
        [headerWarn1, headerWarn2] ++ (groupsLoop 0 1 "\t" 0 [] [] ["A\tB"]).2) :=
  ⟨index_header_fallback.1 "A\tB" [] "\t" ["sample", "group"] (by decide) (by decide),
   index_header_fallback.2 "A\tB" [] "\t" (by decide)⟩

/-- Counterexample to C8 as stated: with `required = ["Sample"]` and a first
line missing that column, the fallback stores the key under its original
spelling `"Sample"`, so the key set is not the set of lowercased required
names (`"sample"` is absent). -/
theorem index_keyset_counterexample :
    index ["x"] "\t" ["Sample"] =
      Except.ok ([("Sample", 0)], false, [headerWarn1, headerWarn2]) ∧
    (([("Sample", 0)] : List (String × Nat)).map Prod.fst = ["Sample"] ∧
      "sample" ∉ (["Sample"] : List String)) :=
  ⟨rfl, rfl, by decide⟩

/-- C8 (amended): when the header is found, the key list of the returned
index map is exactly the lowercased required names (in order); in the
positional-fallback case every *original-spelling* required name is a key and
looks up to its position (lowercased leftovers from the partial pass may
remain as extra keys); values are naturals, hence non-negative, in both
cases. -/
theorem index_keyset_amended :
    ∀ (line : String) (rest : List String) (delim : String) (required : List String),
      (required.map pyLower).Nodup →
      ∀ d hasH w, index (line :: rest) delim required = Except.ok (d, hasH, w) →
        (hasH = true → d.map Prod.fst = required.map pyLower) ∧
        (hasH = false → ∀ j, (h : j < required.length) →
          dictGet? d (required.get ⟨j, h⟩) = some j) := by
  intro line rest delim required hnd d hasH w h
  rcases ht : tryIndices (normalizeHeader line delim) [] required with ⟨d0, b⟩
  have hidx := index_cons_eq line rest delim required
  rw [ht] at hidx
  cases b
  · rw [h] at hidx
    have h1 : d = fallbackAssign d0 0 required := by
      have := Except.ok.inj hidx
      exact congrArg Prod.fst this
    have h2 : hasH = false := by
      have := Except.ok.inj hidx
      exact congrArg (fun t => t.2.1) this
    constructor
    · intro hh
      rw [h2] at hh
      cases hh
    · intro _ j hj
      rw [h1, fallbackAssign_get required (List.Nodup.of_map pyLower hnd) d0 0 j hj,
        Nat.zero_add]
  · rw [h] at hidx
    have h1 : d = d0 := by
      have := Except.ok.inj hidx
      exact congrArg Prod.fst this
    have h2 : hasH = true := by
      have := Except.ok.inj hidx
      exact congrArg (fun t => t.2.1) this
    constructor
    · intro _
      rw [h1]
      have := tryIndices_true_keys (normalizeHeader line delim) required [] d0 hnd
        (by intro c _; simp) ht
      simpa using this
    · intro hh
      rw [h2] at hh
      cases hh

/-- Witness for C8 (amended) at a concrete input: a proper
`sample<TAB>group` header yields exactly the two lowercased keys. -/
theorem index_keyset_amended_witness :
    (true = true →
      ([(("sample" : String), (0 : Nat)), ("group", 1)]).map Prod.fst =
        (["sample", "group"] : List String).map pyLower) ∧
    (true = false → ∀ j, (h : j < (["sample", "group"] : List String).length) →
      dictGet? [(("sample" : String), (0 : Nat)), ("group", 1)]
        ((["sample", "group"] : List String).get ⟨j, h⟩) = some j) :=
  index_keyset_amended "sample\tgroup" [] "\t" ["sample", "group"] (by decide)
    [("sample", 0), ("group", 1)] true [] rfl

/-! ### Group-membership accumulation -/

theorem addSample_eq_new (d : List (String × List String)) (g s : String)
    (h : dictGet? d g = none) : addSample d g s = d ++ [(g, [s])] := by
  simp only [addSample, h]

theorem addSample_eq_mem (d : List (String × List String)) (g s : String)
    (members : List String) (h : dictGet? d g = some members) (hm : s ∈ members) :
    addSample d g s = d := by
  simp only [addSample, h]
  rw [if_pos hm]

theorem addSample_eq_append (d : List (String × List String)) (g s : String)
    (members : List String) (h : dictGet? d g = some members) (hm : s ∉ members) :
    addSample d g s = dictSet d g (members ++ [s]) := by
  simp only [addSample, h]
  rw [if_neg hm]

theorem dictGet?_append_of_none {α : Type} (d : List (String × α)) (g : String) (v : α)
    (h : dictGet? d g = none) : dictGet? (d ++ [(g, v)]) g = some v := by
  unfold dictGet? at *
  have hf : d.find? (fun p => p.1 == g) = none := by
    cases hfd : d.find? (fun p => p.1 == g) with
    | none => rfl
    | some p => rw [hfd] at h; simp at h
  rw [List.find?_append, hf, Option.none_or, List.find?_singleton]
  simp [beq_self_eq_true]

theorem dictGet?_append_of_some {α : Type} (d l : List (String × α)) (g : String) (v : α)
    (h : dictGet? d g = some v) : dictGet? (d ++ l) g = some v := by
  unfold dictGet? at *
  cases hfd : d.find? (fun p => p.1 == g) with
  | none => rw [hfd] at h; simp at h
  | some p =>
    rw [hfd] at h
    rw [List.find?_append, hfd]
    exact h

theorem dictGet?_some_mem {α : Type} {d : List (String × α)} {g : String} {v : α}
    (h : dictGet? d g = some v) : ∃ q ∈ d, q.2 = v := by
  unfold dictGet? at h
  cases hfd : d.find? (fun p => p.1 == g) with
  | none => rw [hfd] at h; simp at h
  | some q =>
    rw [hfd] at h
    refine ⟨q, List.mem_of_find?_eq_some hfd, ?_⟩
    simpa using h

theorem mem_dictGetList_addSample_self (d : List (String × List String)) (g s : String) :
    s ∈ dictGetList (addSample d g s) g := by
  cases hd : dictGet? d g with
  | none =>
    rw [addSample_eq_new _ _ _ hd]
    rw [dictGetList, dictGet?_append_of_none _ _ _ hd]
    simp
  | some members =>
    by_cases hm : s ∈ members
    · rw [addSample_eq_mem _ _ _ _ hd hm, dictGetList, hd]
      exact hm
    · rw [addSample_eq_append _ _ _ _ hd hm, dictGetList, dictGet?_dictSet_self]
      simp

theorem mem_dictGetList_addSample_mono (d : List (String × List String)) (g g' s s' : String)
    (h : s ∈ dictGetList d g) : s ∈ dictGetList (addSample d g' s') g := by
  cases hdg : dictGet? d g with
  | none =>
    rw [dictGetList, hdg] at h
    cases h
  | some ms =>
    rw [dictGetList, hdg] at h
    cases hd : dictGet? d g' with
    | none =>
      rw [addSample_eq_new _ _ _ hd, dictGetList,
        dictGet?_append_of_some _ _ _ _ hdg]
      exact h
    | some members =>
      by_cases hm : s' ∈ members
      · rw [addSample_eq_mem _ _ _ _ hd hm, dictGetList, hdg]
        exact h
      · rw [addSample_eq_append _ _ _ _ hd hm]
        by_cases hgg : g = g'
        · subst hgg
          rw [dictGetList, dictGet?_dictSet_self]
          have : ms = members := by
            rw [hdg] at hd
            exact Option.some.inj hd
          subst this
          exact List.mem_append_left _ h
        · rw [dictGetList, dictGet?_dictSet_ne _ _ _ _ hgg, hdg]
          exact h

theorem mem_dictGetList_foldl_addSample_mono (toks : List String) :
    ∀ (d : List (String × List String)) (g s s' : String),
      s ∈ dictGetList d g →
      s ∈ dictGetList (toks.foldl (fun acc t => addSample acc t s') d) g := by
  induction toks with
  | nil => intro d g s s' h; exact h
  | cons t ts ih =>
    intro d g s s' h
    exact ih _ _ _ _ (mem_dictGetList_addSample_mono _ _ _ _ _ h)

theorem mem_dictGetList_foldl_addSample (toks : List String) :
    ∀ (d : List (String × List String)) (s tok : String), tok ∈ toks →
      s ∈ dictGetList (toks.foldl (fun acc t => addSample acc t s) d) tok := by
  induction toks with
  | nil => intro d s tok h; cases h
  | cons t ts ih =>
    intro d s tok h
    rcases List.mem_cons.mp h with rfl | h2
    · exact mem_dictGetList_foldl_addSample_mono ts _ _ _ _
        (mem_dictGetList_addSample_self d tok s)
    · exact ih _ _ _ h2

theorem mem_dictGetList_addRow (d : List (String × List String)) (s group : String) :
    ∀ tok ∈ cleanedTokens group, s ∈ dictGetList (addRow d s group) tok := by
  intro tok htok
  exact mem_dictGetList_foldl_addSample (cleanedTokens group) d s tok htok

/-- C5: an accepted data row — both columns in range, cleaned sample and raw
group cell non-empty — is folded by splitting the group cell on comma or
semicolon, cleaning each token, and adding the sample under every resulting
token; in particular the sample is then a member of each token's group list. -/
theorem groups_multi_group_row :
    ∀ (sIdx gIdx : Nat) (delim line : String) (rest : List String) (lineno : Nat)
      (dict : List (String × List String)) (warns : List String) (sCell gCell : String),
      (parseCells delim line).get? sIdx = some sCell →
      (parseCells delim line).get? gIdx = some gCell →
      clean sCell ≠ "" → gCell ≠ "" →
      groupsLoop sIdx gIdx delim lineno dict warns (line :: rest) =
        groupsLoop sIdx gIdx delim (lineno + 1) (addRow dict (clean sCell) gCell) warns rest
      ∧ ∀ tok ∈ cleanedTokens gCell,
          clean sCell ∈ dictGetList (addRow dict (clean sCell) gCell) tok := by
  intro sIdx gIdx delim line rest lineno dict warns sCell gCell h0 h1 hs hg
  have hb : (clean sCell == "" || gCell == "") = false := by
    rw [Bool.or_eq_false_iff]
    exact ⟨beq_eq_false_iff_ne.mpr hs, beq_eq_false_iff_ne.mpr hg⟩
  constructor
  · simp only [groupsLoop, h0, h1]
    rw [if_neg (by simp [hb])]
  · exact mem_dictGetList_addRow dict (clean sCell) gCell

/-- Witness for C5 at a concrete input: the row `s1<TAB>GrpA,GrpAB` adds
`s1` under both `GrpA` and `GrpAB`. -/
theorem groups_multi_group_row_witness :
    (groupsLoop 0 1 "\t" 0 [] [] ["s1\tGrpA,GrpAB"] =
      groupsLoop 0 1 "\t" 1 (addRow [] (clean "s1") "GrpA,GrpAB") [] []
     ∧ ∀ tok ∈ cleanedTokens "GrpA,GrpAB",
         clean "s1" ∈ dictGetList (addRow [] (clean "s1") "GrpA,GrpAB") tok) ∧
    "s1" ∈ dictGetList (addRow [] (clean "s1") "GrpA,GrpAB") "GrpA" ∧
    "s1" ∈ dictGetList (addRow [] (clean "s1") "GrpA,GrpAB") "GrpAB" := by
  have h := groups_multi_group_row 0 1 "\t" "s1\tGrpA,GrpAB" [] 0 [] [] "s1" "GrpA,GrpAB"
    rfl rfl (by decide) (by decide)
  exact ⟨h, h.2 "GrpA" (by decide), h.2 "GrpAB" (by decide)⟩

/-! ### Duplicate-freeness of every group's sample list -/

theorem nodup_append_singleton {α : Type} (l : List α) (a : α)
    (h : l.Nodup) (ha : a ∉ l) : (l ++ [a]).Nodup := by
  rw [List.nodup_append]
  refine ⟨h, List.nodup_singleton a, ?_⟩
  intro x hx hx1
  rw [List.mem_singleton] at hx1
  exact ha (hx1 ▸ hx)

theorem addSample_nodup (d : List (String × List String)) (g s : String)
    (hinv : ∀ p ∈ d, p.2.Nodup) : ∀ p ∈ addSample d g s, p.2.Nodup := by
  intro p hp
  cases hd : dictGet? d g with
  | none =>
    rw [addSample_eq_new _ _ _ hd] at hp
    rcases List.mem_append.mp hp with h1 | h1
    · exact hinv p h1
    · rw [List.mem_singleton] at h1
      subst h1
      simp
  | some members =>
    by_cases hm : s ∈ members
    · rw [addSample_eq_mem _ _ _ _ hd hm] at hp
      exact hinv p hp
    · rw [addSample_eq_append _ _ _ _ hd hm] at hp
      rcases mem_dictSet hp with h1 | h1
      · obtain ⟨q, hq, hq2⟩ := dictGet?_some_mem hd
        have hmn : members.Nodup := hq2 ▸ hinv q hq
        rw [h1]
        exact nodup_append_singleton members s hmn hm
      · exact hinv p h1

theorem foldl_addSample_nodup (toks : List String) :
    ∀ (d : List (String × List String)) (s : String),
      (∀ p ∈ d, p.2.Nodup) →
      ∀ p ∈ toks.foldl (fun acc t => addSample acc t s) d, p.2.Nodup := by
  induction toks with
  | nil => intro d s h; exact h
  | cons t ts ih =>
    intro d s h
    exact ih _ _ (addSample_nodup _ _ _ h)

theorem addRow_nodup (d : List (String × List String)) (s group : String)
    (hinv : ∀ p ∈ d, p.2.Nodup) : ∀ p ∈ addRow d s group, p.2.Nodup :=
  foldl_addSample_nodup (cleanedTokens group) d s hinv

theorem groupsLoop_nodup (sIdx gIdx : Nat) (delim : String) :
    ∀ (lines : List String) (lineno : Nat) (dict : List (String × List String))
      (warns : List String),
      (∀ p ∈ dict, p.2.Nodup) →
      ∀ p ∈ (groupsLoop sIdx gIdx delim lineno dict warns lines).1, p.2.Nodup := by
  intro lines
  induction lines with
  | nil => intro lineno dict warns h; exact h
  | cons line rest ih =>
    intro lineno dict warns h
    rcases h0 : (parseCells delim line).get? sIdx with _ | sCell
    · simp only [groupsLoop, h0]
      split
      · exact ih _ _ _ h
      · exact ih _ _ _ h
    · rcases h1 : (parseCells delim line).get? gIdx with _ | gCell
      · simp only [groupsLoop, h0, h1]
        split
        · exact ih _ _ _ h
        · exact ih _ _ _ h
      · simp only [groupsLoop, h0, h1]
        split
        · exact ih _ _ _ h
        · exact ih _ _ _ (addRow_nodup dict (clean sCell) gCell h)

/-- C6: membership accumulation is idempotent and order-preserving — every
group list in a returned mapping is duplicate-free; re-adding a sample that a
group already holds leaves the dictionary untouched; and one insertion either
leaves a group's list unchanged (sample already present) or appends the
sample at the end, preserving first-seen order. -/
theorem groups_idempotent_membership :
    (∀ (file : List String) (delim : String) (m : List (String × List String))
        (w : List String),
      groups file delim = Except.ok (m, w) → ∀ p ∈ m, p.2.Nodup)
    ∧ (∀ (d : List (String × List String)) (g s : String),
        s ∈ dictGetList d g → addSample d g s = d)
    ∧ (∀ (d : List (String × List String)) (g s : String),
        dictGetList (addSample d g s) g =
          if s ∈ dictGetList d g then dictGetList d g else dictGetList d g ++ [s]) := by
  refine ⟨?_, ?_, ?_⟩
  · intro file delim m w h
    cases hidx : index file "\t" ["sample", "group"] with
    | error e =>
      rw [groups, hidx] at h
      cases h
    | ok v =>
      obtain ⟨indices, hasH, w0⟩ := v
      rw [groups, hidx] at h
      have hm : m = (if hasH then
          groupsLoop ((dictGet? indices "sample").getD 0)
            ((dictGet? indices "group").getD 0) delim 1 [] [] file.tail
        else
          groupsLoop ((dictGet? indices "sample").getD 0)
            ((dictGet? indices "group").getD 0) delim 0 [] [] file).1 := by
        have := Except.ok.inj h
        exact (congrArg Prod.fst this).symm
      rw [hm]
      cases hasH
      · simp only [Bool.false_eq_true, if_false]
        exact groupsLoop_nodup _ _ _ _ _ _ _ (by intro p hp; cases hp)
      · simp only [if_true]
        exact groupsLoop_nodup _ _ _ _ _ _ _ (by intro p hp; cases hp)
  · intro d g s h
    cases hd : dictGet? d g with
    | none =>
      rw [dictGetList, hd] at h
      cases h
    | some members =>
      rw [dictGetList, hd] at h
      exact addSample_eq_mem _ _ _ _ hd h
  · intro d g s
    cases hd : dictGet? d g with
    | none =>
      rw [addSample_eq_new _ _ _ hd, dictGetList, dictGet?_append_of_none _ _ _ hd]
      simp [dictGetList, hd]
    | some members =>
      by_cases hm : s ∈ members
      · rw [addSample_eq_mem _ _ _ _ hd hm]
        simp [dictGetList, hd, hm]
      · rw [addSample_eq_append _ _ _ _ hd hm, dictGetList, dictGet?_dictSet_self]
        simp [dictGetList, hd, hm]

/-- Witness for C6 at a concrete input: a sample listed twice under the same
group stays a single entry, and re-inserting it is the identity. -/
theorem groups_idempotent_membership_witness :
    (∀ p ∈ [(("G" : String), ["s1"])], p.2.Nodup) ∧
    addSample [(("G" : String), ["s1"])] "G" "s1" = [("G", ["s1"])] :=
  ⟨groups_idempotent_membership.1 ["Sample\tGroup", "s1\tG", "s1\tG"] "\t"
      [("G", ["s1"])] [] rfl,
   groups_idempotent_membership.2.1 [("G", ["s1"])] "G" "s1" (by decide)⟩

/-- C7: `groups` never fails on malformed data lines — on any non-empty file
it returns a mapping; a line missing the sample or group column is skipped
with a warning when some non-empty cell remains, skipped silently when fully
blank, and a line whose cleaned sample or raw group value is empty is skipped
with a warning; in every case processing continues with the next line. -/
theorem groups_total_and_skips :
    (∀ (line : String) (rest : List String) (delim : String),
      ∃ r, groups (line :: rest) delim = Except.ok r)
    ∧ (∀ (sIdx gIdx : Nat) (delim line : String) (rest : List String) (lineno : Nat)
        (dict : List (String × List String)) (warns : List String),
        ((parseCells delim line).get? sIdx = none ∨ (parseCells delim line).get? gIdx = none) →
        (parseCells delim line).filter (fun item => item != "") ≠ [] →
        groupsLoop sIdx gIdx delim lineno dict warns (line :: rest) =
          groupsLoop sIdx gIdx delim (lineno + 1) dict
            (warns ++ [missingColWarn (lineno + 1)]) rest)
    ∧ (∀ (sIdx gIdx : Nat) (delim line : String) (rest : List String) (lineno : Nat)
        (dict : List (String × List String)) (warns : List String),
        ((parseCells delim line).get? sIdx = none ∨ (parseCells delim line).get? gIdx = none) →
        (parseCells delim line).filter (fun item => item != "") = [] →
        groupsLoop sIdx gIdx delim lineno dict warns (line :: rest) =
          groupsLoop sIdx gIdx delim (lineno + 1) dict warns rest)
    ∧ (∀ (sIdx gIdx : Nat) (delim line : String) (rest : List String) (lineno : Nat)
        (dict : List (String × List String)) (warns : List String) (sCell gCell : String),
        (parseCells delim line).get? sIdx = some sCell →
        (parseCells delim line).get? gIdx = some gCell →
        (clean sCell = "" ∨ gCell = "") →
        groupsLoop sIdx gIdx delim lineno dict warns (line :: rest) =
          groupsLoop sIdx gIdx delim (lineno + 1) dict
            (warns ++ [missingValWarn (lineno + 1)]) rest) := by
  refine ⟨?_, ?_, ?_, ?_⟩
  · intro line rest delim
    obtain ⟨v, hv⟩ := index_cons_ok line rest "\t" ["sample", "group"]
    obtain ⟨indices, hasH, w0⟩ := v
    exact ⟨_, by rw [groups, hv]⟩
  · intro sIdx gIdx delim line rest lineno dict warns hcol hne
    rcases hcol with hcol | hcol
    · rcases h1 : (parseCells delim line).get? gIdx with _ | gCell
      · simp only [groupsLoop, hcol, h1]
        rw [if_neg hne]
      · simp only [groupsLoop, hcol, h1]
        rw [if_neg hne]
    · rcases h0 : (parseCells delim line).get? sIdx with _ | sCell
      · simp only [groupsLoop, h0, hcol]
        rw [if_neg hne]
      · simp only [groupsLoop, h0, hcol]
        rw [if_neg hne]
  · intro sIdx gIdx delim line rest lineno dict warns hcol heq
    rcases hcol with hcol | hcol
    · rcases h1 : (parseCells delim line).get? gIdx with _ | gCell
      · simp only [groupsLoop, hcol, h1]
        rw [if_pos heq]
      · simp only [groupsLoop, hcol, h1]
        rw [if_pos heq]
    · rcases h0 : (parseCells delim line).get? sIdx with _ | sCell
      · simp only [groupsLoop, h0, hcol]
        rw [if_pos heq]
      · simp only [groupsLoop, h0, hcol]
        rw [if_pos heq]
  · intro sIdx gIdx delim line rest lineno dict warns sCell gCell h0 h1 hval
    have hb : (clean sCell == "" || gCell == "") = true := by
      rcases hval with hval | hval
      · rw [Bool.or_eq_true]
        exact Or.inl (beq_iff_eq.mpr hval)
      · rw [Bool.or_eq_true]
        exact Or.inr (beq_iff_eq.mpr hval)
    simp only [groupsLoop, h0, h1]
    rw [if_pos hb]

/-- Witness for C7 at a concrete input: a one-cell line warns and is skipped,
a blank line is skipped silently, and an empty group value warns — the loop
always reaches the end of the file. -/
theorem groups_total_and_skips_witness :
    (∃ r, groups ["only"] "\t" = Except.ok r) ∧
    groupsLoop 0 1 "\t" 0 [] [] ["only"] =
      groupsLoop 0 1 "\t" 1 [] [missingColWarn 1] [] ∧
    groupsLoop 0 1 "\t" 0 [] [] [""] = groupsLoop 0 1 "\t" 1 [] [] [] ∧
    groupsLoop 0 1 "\t" 0 [] [] ["s1\t"] =
      groupsLoop 0 1 "\t" 1 [] [missingValWarn 1] [] := by
  refine ⟨groups_total_and_skips.1 "only" [] "\t", ?_, ?_, ?_⟩
  · have h := groups_total_and_skips.2.1 0 1 "\t" "only" [] 0 [] []
      (Or.inr rfl) (by decide)
    simpa using h
  · have h := groups_total_and_skips.2.2.1 0 1 "\t" "" [] 0 [] []
      (Or.inr rfl) (by decide)
    simpa using h
  · have h := groups_total_and_skips.2.2.2 0 1 "\t" "s1\t" [] 0 [] [] "s1" ""
      rfl rfl (Or.inr rfl)
    simpa using h

end HiIP
